import Mathlib

/-!
# InvoiceGenerator — verified shallow embedding of the core data model

This file embeds the invoice data/calculation model of
`InvoiceGenerator/api.py` (classes `Address`, `Client`, `Provider`,
`Creator`, `Item`, `Invoice`) into Lean 4 and proves/refutes the spec's
claims about it.

Modelling conventions:
* Python `Decimal` values are modelled as exact rationals (`ℚ`).  All
  arithmetic the invoice core performs (`+`, `*`, division by the literal
  100, `quantize(0, strategy)`) is exact decimal arithmetic at invoice-scale
  magnitudes; the 28-significant-digit context precision of the `decimal`
  module is not modelled.
* Python `sum(...)` is a left fold starting from 0 over the generator; over
  exact values this agrees with `List.sum` of the mapped list.
* `collections.OrderedDict` keyed by `Decimal` is modelled as an
  association list `List (ℚ × VatRow)` with first-encountered insertion
  order and numeric (`Decimal`-equality, i.e. `ℚ`-equality) keys.
* A Python `assert` failure / an attribute left unset by a setter is
  modelled with `Option`: `none` stands for the failing path.
-/

namespace InvoiceGen

/-! ## Address / Client / Provider (api.py lines 21-159)

`Address.__init__` simply stores every argument; the `UnicodeProperty`
base class's `__setattr__` is an identity hook.  There is no validation of
any field: in particular the `summary` argument may be the empty string. -/

structure Address where
  summary : String
  additional_name : String := ""
  address : String := ""
  city : String := ""
  zip_code : String := ""
  phone : String := ""
  email : String := ""
  bank_name : String := ""
  bank_account : String := ""
  bank_code : String := ""
  note : String := ""
  vat_id : String := ""
  ir : String := ""
  logo_filename : String := ""
  vat_note : String := ""
  country : String := ""
  ss : String := ""
  siret : String := ""
deriving DecidableEq

/-- `Address.__init__` (api.py 66-104): stores each argument verbatim, with
empty-string defaults for everything but `summary`.  It performs no
validation and cannot fail (the function is total). -/
def Address.init (summary : String)
    (additional_name : String := "") (address : String := "")
    (city : String := "") (zip_code : String := "") (phone : String := "")
    (email : String := "") (bank_name : String := "")
    (bank_account : String := "") (bank_code : String := "")
    (note : String := "") (vat_id : String := "") (ir : String := "")
    (logo_filename : String := "") (vat_note : String := "")
    (country : String := "") (ss : String := "") (siret : String := "") :
    Address :=
  { summary := summary, additional_name := additional_name,
    address := address, city := city, zip_code := zip_code, phone := phone,
    email := email, bank_name := bank_name, bank_account := bank_account,
    bank_code := bank_code, note := note, vat_id := vat_id, ir := ir,
    logo_filename := logo_filename, vat_note := vat_note,
    country := country, ss := ss, siret := siret }

/-- Python class tag of an `Address`-shaped object: `Client` and `Provider`
are sibling subclasses of `Address` with no members of their own, so
`isinstance(x, Client)` holds exactly when `x`'s class tag is `client`. -/
inductive PartyClass
  | address
  | client
  | provider
deriving DecidableEq

/-- An `Address`-shaped Python object together with its runtime class. -/
structure PartyObj where
  cls : PartyClass
  data : Address
deriving DecidableEq

/-! ## Creator (api.py 162-174) -/

structure Creator where
  name : String
  stamp_filename : String := ""
deriving DecidableEq

/-- Runtime class tag of the object passed as the `creator` argument. -/
inductive CreatorClass
  | creator
  | other
deriving DecidableEq

structure CreatorObj where
  cls : CreatorClass
  data : Creator
deriving DecidableEq

/-! ## Item (api.py 177-257)

An `Item` whose `_count` and `_price` attributes have been set.  The
constructor path, with its setter quirks, is `Item.init` below. -/

structure Item where
  _count : ℚ
  _price : ℚ
  _description : String := ""
  _unit : Option String := none
  _tax : ℚ := 0
deriving DecidableEq

def Item.count (i : Item) : ℚ := i._count

def Item.price (i : Item) : ℚ := i._price

def Item.tax (i : Item) : ℚ := i._tax

/-- `Item.total` (api.py 194-197): `price * count`. -/
def Item.total (i : Item) : ℚ := i.price * i.count

/-- `Item.total_tax` (api.py 199-202): `price * count * (1 + tax / 100)`. -/
def Item.total_tax (i : Item) : ℚ :=
  i.price * i.count * (1 + i.tax / 100)

/-- `Item.count_tax` (api.py 204-206): `total_tax - total`. -/
def Item.count_tax (i : Item) : ℚ := i.total_tax - i.total

/-- The `count` setter (api.py 222-225): `if value: self._count =
Decimal(value)` — on a falsy value (numerically zero) the assignment is
silently skipped and the previously stored value (if any) is kept. -/
def Item.setCount (stored : Option ℚ) (value : ℚ) : Option ℚ :=
  if value = 0 then stored else some value

/-- The `price` setter (api.py 232-235): same falsy no-op as the `count`
setter. -/
def Item.setPrice (stored : Option ℚ) (value : ℚ) : Option ℚ :=
  if value = 0 then stored else some value

/-- The `tax` setter (api.py 252-257): `None` normalises to 0, any other
value is stored as a `Decimal`. -/
def Item.setTax (value : Option ℚ) : ℚ := value.getD 0

/-- `Item.__init__` (api.py 187-192) through the property setters.  When
`count` or `price` is falsy (zero) the corresponding attribute is never
set, and every later access to `count`, `price`, `total`, `total_tax` or
`count_tax` on the object raises `AttributeError`; that failing outcome is
modelled as `none`.  The `unit` setter likewise skips the empty string. -/
def Item.init (count : ℚ) (price : ℚ) (description : String := "")
    (unit : String := "") (tax : Option ℚ := some 0) : Option Item :=
  (Item.setCount none count).bind fun c =>
    (Item.setPrice none price).map fun p =>
      { _count := c, _price := p, _description := description,
        _unit := if unit = "" then none else some unit,
        _tax := Item.setTax tax }

/-! ## Rounding strategies (decimal module identifiers)

`Invoice.rounding_strategy` holds one of the `decimal` module's rounding
identifiers; `Invoice._round_price` quantizes with it to exponent 0, i.e.
to a whole number.  Each strategy is modelled as a map `ℚ → ℤ`. -/

inductive RoundingStrategy
  | halfEven
  | halfUp
  | halfDown
  | ceiling
  | floor
  | down
  | up
  | zeroFiveUp
deriving DecidableEq

/-- Rounding towards zero (the `ROUND_DOWN` direction). -/
def ratTruncate (x : ℚ) : ℤ := if 0 ≤ x then ⌊x⌋ else ⌈x⌉

/-- Round-to-nearest with the given tie-breaking rule, used by the three
`ROUND_HALF_*` strategies (tie means the fractional part is exactly 1/2). -/
def halfRound (tie : ℤ → ℚ → ℤ) (x : ℚ) : ℤ :=
  if x - ⌊x⌋ < 1 / 2 then ⌊x⌋
  else if 1 / 2 < x - ⌊x⌋ then ⌊x⌋ + 1
  else tie ⌊x⌋ x

/-- `Decimal.quantize(0, rounding=strategy)`: the integer each `decimal`
strategy produces from an exact value. -/
def applyRounding : RoundingStrategy → ℚ → ℤ
  | .halfEven, x => halfRound (fun n _ => if n % 2 = 0 then n else n + 1) x
  | .halfUp, x => halfRound (fun n y => if 0 < y then n + 1 else n) x
  | .halfDown, x => halfRound (fun n y => if 0 < y then n else n + 1) x
  | .ceiling, x => ⌈x⌉
  | .floor, x => ⌊x⌋
  | .down, x => ratTruncate x
  | .up, x =>
      if x = ratTruncate x then ratTruncate x
      else ratTruncate x + (if 0 < x then 1 else -1)
  | .zeroFiveUp, x =>
      if x = ratTruncate x then ratTruncate x
      else if (ratTruncate x).natAbs % 10 = 0 ∨
              (ratTruncate x).natAbs % 10 = 5 then
        ratTruncate x + (if 0 < x then 1 else -1)
      else ratTruncate x

/-! ## Invoice (api.py 260-402) -/

/-- One accumulated entry of the tax-grouping table (api.py 377-385). -/
structure VatRow where
  total : ℚ
  total_tax : ℚ
  tax : ℚ
deriving DecidableEq

/-- The `Invoice` object after `__init__` succeeded.  Presentation-only
scalar attributes that no computation reads (`paytype`, `number`, `iban`,
`swift`, the dates, `currency`, `currency_locale`, `objet`) are omitted;
`kind`, `mode`, the rounding toggle and the rounding strategy are kept
with their class-level defaults (api.py 272-303). -/
structure Invoice where
  client : Address
  provider : Address
  creator : Creator
  _items : List Item := []
  kind : String := "facture"
  mode : ℤ := 1
  rounding_result : Bool := false
  rounding_strategy : RoundingStrategy := .halfEven
deriving DecidableEq

/-- `Invoice.__init__` (api.py 305-316): asserts
`isinstance(client, Client)`, `isinstance(provider, Provider)` and
`isinstance(creator, Creator)`, then stores the three objects and an empty
item list.  A failed `assert` (modelled as `none`) aborts construction. -/
def Invoice.init (client : PartyObj) (provider : PartyObj)
    (creator : CreatorObj) : Option Invoice :=
  if client.cls = PartyClass.client ∧ provider.cls = PartyClass.provider ∧
      creator.cls = CreatorClass.creator then
    some { client := client.data, provider := provider.data,
           creator := creator.data, _items := [] }
  else none

def Invoice.items (inv : Invoice) : List Item := inv._items

/-- `Invoice._price_tax_unrounded` (api.py 318-319). -/
def Invoice._price_tax_unrounded (inv : Invoice) : ℚ :=
  (inv.items.map Item.total_tax).sum

/-- `Invoice._round_price` (api.py 362-365): quantize to exponent 0 (whole
currency units) with the configured strategy. -/
def Invoice._round_price (inv : Invoice) (price : ℚ) : ℚ :=
  ((applyRounding inv.rounding_strategy price : ℤ) : ℚ)

/-- `Invoice._round_result` (api.py 389-392): round only when the
`rounding_result` toggle is enabled. -/
def Invoice._round_result (inv : Invoice) (price : ℚ) : ℚ :=
  if inv.rounding_result then inv._round_price price else price

/-- `Invoice.price` (api.py 321-324). -/
def Invoice.price (inv : Invoice) : ℚ :=
  inv._round_result (inv.items.map Item.total).sum

/-- `Invoice.price_tax` (api.py 326-329). -/
def Invoice.price_tax (inv : Invoice) : ℚ :=
  inv._round_result inv._price_tax_unrounded

/-- `Invoice.difference_in_rounding` (api.py 367-371). -/
def Invoice.difference_in_rounding (inv : Invoice) : ℚ :=
  inv._round_price inv._price_tax_unrounded - inv._price_tax_unrounded

/-- `Invoice.set_kind`'s `possible_values` (api.py 332). -/
def possibleKinds : List String := ["facture", "devis"]

/-- `Invoice.set_kind` (api.py 331-337): keep a valid value; otherwise
print a diagnostic and fall back to `possible_values[0]`.  The returned
`Bool` records whether the diagnostic was emitted; the setter never
raises. -/
def Invoice.set_kind (inv : Invoice) (kind : String) : Invoice × Bool :=
  if kind ∈ possibleKinds then ({ inv with kind := kind }, false)
  else ({ inv with kind := possibleKinds.headD "" }, true)

/-- `Invoice.set_mode`'s `possible_values` (api.py 340). -/
def possibleModes : List ℤ := [1, 2]

/-- `Invoice.set_mode` (api.py 339-345): same fallback-with-diagnostic
policy as `set_kind`. -/
def Invoice.set_mode (inv : Invoice) (mode : ℤ) : Invoice × Bool :=
  if mode ∈ possibleModes then ({ inv with mode := mode }, false)
  else ({ inv with mode := possibleModes.headD 0 }, true)

/-- The opening entry of the grouping table for a first-seen tax rate
(api.py 377-381). -/
def initRow (it : Item) : VatRow :=
  { total := it.total, total_tax := it.total_tax, tax := it.count_tax }

/-- The `+=` accumulation into an existing entry (api.py 383-385). -/
def addRow (r : VatRow) (it : Item) : VatRow :=
  { total := r.total + it.total, total_tax := r.total_tax + it.total_tax,
    tax := r.tax + it.count_tax }

/-- One loop iteration of `_get_grouped_items_by_tax` on the ordered
table: update the entry at key `item.tax` in place if present, else append
a fresh entry at the end (`OrderedDict` insertion order). -/
def updateTable : List (ℚ × VatRow) → Item → List (ℚ × VatRow)
  | [], it => [(it.tax, initRow it)]
  | (t, row) :: rest, it =>
      if t = it.tax then (t, addRow row it) :: rest
      else (t, row) :: updateTable rest it

/-- `Invoice._get_grouped_items_by_tax` (api.py 373-387). -/
def Invoice._get_grouped_items_by_tax (inv : Invoice) :
    List (ℚ × VatRow) :=
  inv.items.foldl updateTable []

/-- `Invoice.generate_breakdown_vat` (api.py 394-395). -/
def Invoice.generate_breakdown_vat (inv : Invoice) : List (ℚ × VatRow) :=
  inv._get_grouped_items_by_tax

/-- `Invoice.generate_breakdown_vat_table` (api.py 397-402): one row
`(vat, total, total_tax, tax)` per distinct tax rate, in table order. -/
def Invoice.generate_breakdown_vat_table (inv : Invoice) :
    List (ℚ × ℚ × ℚ × ℚ) :=
  inv.generate_breakdown_vat.map
    (fun p => (p.1, p.2.total, p.2.total_tax, p.2.tax))

/-! ## Specification-side description of the tax breakdown

The spec describes the breakdown as: group items by exact tax-rate value,
one row per distinct rate in first-encountered order, each row carrying
the rate and the summed pre-tax total, post-tax total and tax amount of
the items at that exact rate.  These definitions follow the spec's words;
they are compared with the source-derived fold above. -/

/-- Collect a tax rate if it has not been seen yet (keeps first-seen
order). -/
def seenFold (acc : List ℚ) (it : Item) : List ℚ :=
  if it.tax ∈ acc then acc else acc ++ [it.tax]

/-- The distinct tax rates of an item sequence, in first-encountered
order. -/
def firstSeenRates (items : List Item) : List ℚ :=
  items.foldl seenFold []

/-- The summed row of the items whose tax rate equals `r` exactly. -/
def rateRow (items : List Item) (r : ℚ) : VatRow :=
  { total := ((items.filter (fun it => it.tax = r)).map Item.total).sum,
    total_tax :=
      ((items.filter (fun it => it.tax = r)).map Item.total_tax).sum,
    tax := ((items.filter (fun it => it.tax = r)).map Item.count_tax).sum }

/-- The grouping table as the spec describes it. -/
def specTable (items : List Item) : List (ℚ × VatRow) :=
  (firstSeenRates items).map (fun r => (r, rateRow items r))

/-- The breakdown rows as the spec describes them. -/
def breakdownSpec (items : List Item) : List (ℚ × ℚ × ℚ × ℚ) :=
  (specTable items).map (fun p => (p.1, p.2.total, p.2.total_tax, p.2.tax))

/-! ## Concrete sample values (used by witnesses and counterexamples) -/

def sampleClient : Address := Address.init "Client SARL"

def sampleProvider : Address := Address.init "Provider SAS"

def sampleCreator : Creator := { name := "Alice" }

def clientObj : PartyObj :=
  { cls := PartyClass.client, data := sampleClient }

def providerObj : PartyObj :=
  { cls := PartyClass.provider, data := sampleProvider }

def creatorObj : CreatorObj :=
  { cls := CreatorClass.creator, data := sampleCreator }

def itemA : Item := { _count := 60, _price := 50, _tax := 21 }

def itemB : Item := { _count := 50, _price := 60 }

def sampleInvoice : Invoice :=
  { client := sampleClient, provider := sampleProvider,
    creator := sampleCreator, _items := [itemA, itemB] }

/-- An invoice with the rounding toggle enabled and a fractional total. -/
def cexInvoice : Invoice :=
  { client := sampleClient, provider := sampleProvider,
    creator := sampleCreator, _items := [{ _count := 1, _price := 1 / 2 }],
    rounding_result := true }

/-! ## Rounding lemmas: every strategy quantizing to exponent 0 stays
within one unit of its argument -/

theorem abs_floor_sub_lt (x : ℚ) : |((⌊x⌋ : ℤ) : ℚ) - x| < 1 := by
  rw [abs_sub_lt_iff]
  constructor
  · linarith [Int.floor_le x]
  · linarith [Int.lt_floor_add_one x]

theorem abs_ceil_sub_lt (x : ℚ) : |((⌈x⌉ : ℤ) : ℚ) - x| < 1 := by
  rw [abs_sub_lt_iff]
  constructor
  · linarith [Int.ceil_lt_add_one x]
  · linarith [Int.le_ceil x]

theorem abs_floor_succ_sub_lt (x : ℚ) (h : (⌊x⌋ : ℚ) ≠ x) :
    |((⌊x⌋ : ℤ) : ℚ) + 1 - x| < 1 := by
  have h1 : (⌊x⌋ : ℚ) < x := lt_of_le_of_ne (Int.floor_le x) h
  rw [abs_sub_lt_iff]
  constructor
  · linarith
  · linarith [Int.lt_floor_add_one x]

theorem abs_ceil_pred_sub_lt (x : ℚ) (h : (⌈x⌉ : ℚ) ≠ x) :
    |((⌈x⌉ : ℤ) : ℚ) - 1 - x| < 1 := by
  have h1 : x < (⌈x⌉ : ℚ) := lt_of_le_of_ne (Int.le_ceil x) (Ne.symm h)
  rw [abs_sub_lt_iff]
  constructor
  · linarith [Int.ceil_lt_add_one x]
  · linarith

theorem abs_ratTruncate_sub_lt (x : ℚ) :
    |((ratTruncate x : ℤ) : ℚ) - x| < 1 := by
  unfold ratTruncate
  split_ifs
  · exact abs_floor_sub_lt x
  · exact abs_ceil_sub_lt x

theorem abs_halfRound_sub_lt (tie : ℤ → ℚ → ℤ) (x : ℚ)
    (htie : ∀ n y, tie n y = n ∨ tie n y = n + 1) :
    |((halfRound tie x : ℤ) : ℚ) - x| < 1 := by
  unfold halfRound
  split_ifs with h1 h2
  · exact abs_floor_sub_lt x
  · have hne : (⌊x⌋ : ℚ) ≠ x := by
      have : (⌊x⌋ : ℚ) < x := by linarith
      exact ne_of_lt this
    push_cast
    exact abs_floor_succ_sub_lt x hne
  · have hf : x - (⌊x⌋ : ℚ) = 1 / 2 :=
      le_antisymm (not_lt.mp h2) (not_lt.mp h1)
    have hne : (⌊x⌋ : ℚ) ≠ x := by
      intro he
      rw [← he] at hf
      norm_num at hf
    rcases htie ⌊x⌋ x with ht | ht <;> rw [ht]
    · exact abs_floor_sub_lt x
    · push_cast
      exact abs_floor_succ_sub_lt x hne

/-- Rounding away from zero by one step from the truncation stays within
one unit, provided the value is not already an integer. -/
theorem abs_truncAway_sub_lt (x : ℚ)
    (he : ¬ x = ((ratTruncate x : ℤ) : ℚ)) :
    |((ratTruncate x + (if 0 < x then 1 else -1) : ℤ) : ℚ) - x| < 1 := by
  by_cases hpos : 0 < x
  · have h0 : (0 : ℚ) ≤ x := le_of_lt hpos
    have ht : ratTruncate x = ⌊x⌋ := if_pos h0
    rw [if_pos hpos, ht]
    have hne : (⌊x⌋ : ℚ) ≠ x := by
      intro hc
      exact he (by rw [ht, hc])
    push_cast
    exact abs_floor_succ_sub_lt x hne
  · have hx0 : x ≠ 0 := by
      intro h0
      apply he
      subst h0
      have : ratTruncate 0 = ⌊(0 : ℚ)⌋ := if_pos le_rfl
      rw [this]
      norm_num
    have hneg : x < 0 := lt_of_le_of_ne (not_lt.mp hpos) hx0
    have ht : ratTruncate x = ⌈x⌉ := if_neg (not_le.mpr hneg)
    rw [if_neg hpos, ht]
    have hne : (⌈x⌉ : ℚ) ≠ x := by
      intro hc
      exact he (by rw [ht, hc])
    push_cast
    rw [← sub_eq_add_neg]
    exact abs_ceil_pred_sub_lt x hne

theorem abs_applyRounding_sub_lt (s : RoundingStrategy) (x : ℚ) :
    |((applyRounding s x : ℤ) : ℚ) - x| < 1 := by
  cases s with
  | halfEven =>
      simp only [applyRounding]
      exact abs_halfRound_sub_lt _ x
        (fun n y => by by_cases h : n % 2 = 0 <;> simp [h])
  | halfUp =>
      simp only [applyRounding]
      exact abs_halfRound_sub_lt _ x
        (fun n y => by by_cases h : (0 : ℚ) < y <;> simp [h])
  | halfDown =>
      simp only [applyRounding]
      exact abs_halfRound_sub_lt _ x
        (fun n y => by by_cases h : (0 : ℚ) < y <;> simp [h])
  | ceiling => exact abs_ceil_sub_lt x
  | floor => exact abs_floor_sub_lt x
  | down => exact abs_ratTruncate_sub_lt x
  | up =>
      simp only [applyRounding]
      by_cases he : x = ((ratTruncate x : ℤ) : ℚ)
      · rw [if_pos he, ← he]
        simp
      · rw [if_neg he]
        exact abs_truncAway_sub_lt x he
  | zeroFiveUp =>
      simp only [applyRounding]
      by_cases he : x = ((ratTruncate x : ℤ) : ℚ)
      · rw [if_pos he, ← he]
        simp
      · rw [if_neg he]
        by_cases hd : (ratTruncate x).natAbs % 10 = 0 ∨
            (ratTruncate x).natAbs % 10 = 5
        · rw [if_pos hd]
          exact abs_truncAway_sub_lt x he
        · rw [if_neg hd]
          exact abs_ratTruncate_sub_lt x

/-! ## Claim theorems (first batch) -/

/-- C4: for every invoice (hence every configured rounding strategy) and
every value, `_round_price` quantizes to a whole number of currency units
(0 fractional digits), and `difference_in_rounding` — the signed delta
between the rounded and the exact tax-inclusive sum — has magnitude
strictly below 1 currency unit. -/
theorem C4_round_price_integral_and_difference_lt_one (inv : Invoice)
    (x : ℚ) :
    (∃ n : ℤ, Invoice._round_price inv x = (n : ℚ)) ∧
    |inv.difference_in_rounding| < 1 := by
  constructor
  · exact ⟨applyRounding inv.rounding_strategy x, rfl⟩
  · unfold Invoice.difference_in_rounding Invoice._round_price
    exact abs_applyRounding_sub_lt inv.rounding_strategy
      inv._price_tax_unrounded

/-- C5: for every item with tax rate ≥ 0, `total_tax - total` equals
`count_tax` exactly (in exact decimal arithmetic), and that tax amount is
`total * tax / 100`. -/
theorem C5_tax_amount_exact (i : Item) (_h : 0 ≤ i.tax) :
    i.total_tax - i.total = i.count_tax ∧
    i.count_tax = i.total * (i.tax / 100) := by
  refine ⟨rfl, ?_⟩
  unfold Item.count_tax Item.total_tax Item.total
  ring

theorem C5_tax_amount_exact_witness :
    0 ≤ itemA.tax ∧
    (itemA.total_tax - itemA.total = itemA.count_tax ∧
      itemA.count_tax = itemA.total * (itemA.tax / 100)) := by
  have htax : 0 ≤ itemA.tax := by norm_num [itemA, Item.tax]
  exact ⟨htax, C5_tax_amount_exact itemA htax⟩

/-- C2: the code diverges from the claim.  `Item(count=0, price=5)` does
not yield an item with zero totals: the falsy-no-op `count` setter leaves
`_count` unset, so every later `count`/`total` access raises
`AttributeError` (`none` here).  And `Item(count=-3, price=7)` does not
raise any `ValidationError`: the negative values are stored verbatim. -/
theorem C2_item_init_quirk :
    Item.init 0 5 = none ∧
    Item.init (-3) 7 = some { _count := -3, _price := 7 } := by
  constructor <;>
    norm_num [Item.init, Item.setCount, Item.setPrice, Item.setTax]

/-- C6 counterexample: constructing an `Address` with the empty summary
succeeds (no `ValidationError` exists in the code) and produces a party
whose `summary` is empty, refuting the claimed invariant. -/
theorem C6_empty_summary_accepted : (Address.init "").summary = "" := rfl

/-- C6 amended: `Address.__init__` performs no validation at all — it
succeeds for every summary, including the empty string, and the
constructed party's `summary` is exactly the given argument (possibly
empty). -/
theorem C6_address_init_stores_summary (s : String) :
    (Address.init s).summary = s := rfl

/-- C7: `set_kind` accepts exactly the two enumerated kinds and `set_mode`
exactly {1, 2}; both setters are total (never raise), on invalid input
they emit a diagnostic and fall back to the first enumerated value, and
after any call the attribute is a member of its enumeration. -/
theorem C7_set_kind_set_mode_fallback (inv : Invoice) (k : String)
    (m : ℤ) :
    (inv.set_kind k).1.kind ∈ possibleKinds ∧
    (inv.set_kind k).1.kind = (if k ∈ possibleKinds then k else "facture") ∧
    ((inv.set_kind k).2 = true ↔ k ∉ possibleKinds) ∧
    (inv.set_mode m).1.mode ∈ possibleModes ∧
    (inv.set_mode m).1.mode = (if m ∈ possibleModes then m else 1) ∧
    ((inv.set_mode m).2 = true ↔ m ∉ possibleModes) := by
  unfold Invoice.set_kind Invoice.set_mode
  by_cases hk : k ∈ possibleKinds <;> by_cases hm : m ∈ possibleModes
  · rw [if_pos hk, if_pos hm, if_pos hk, if_pos hm]
    exact ⟨hk, rfl, by simp [hk], hm, rfl, by simp [hm]⟩
  · rw [if_pos hk, if_neg hm, if_pos hk, if_neg hm]
    exact ⟨hk, rfl, by simp [hk], by simp [possibleModes], rfl,
      by simp [hm]⟩
  · rw [if_neg hk, if_pos hm, if_neg hk, if_pos hm]
    exact ⟨by simp [possibleKinds], rfl, by simp [hk], hm, rfl,
      by simp [hm]⟩
  · rw [if_neg hk, if_neg hm, if_neg hk, if_neg hm]
    exact ⟨by simp [possibleKinds], rfl, by simp [hk],
      by simp [possibleModes], rfl, by simp [hm]⟩

/-- C9: `mode` is presentation-only — changing only the `mode` attribute
leaves `price`, `price_tax`, `difference_in_rounding` and the tax
breakdown unchanged. -/
theorem C9_mode_does_not_affect_totals (inv : Invoice) (m : ℤ) :
    Invoice.price { inv with mode := m } = inv.price ∧
    Invoice.price_tax { inv with mode := m } = inv.price_tax ∧
    Invoice.difference_in_rounding { inv with mode := m } =
      inv.difference_in_rounding ∧
    Invoice.generate_breakdown_vat_table { inv with mode := m } =
      inv.generate_breakdown_vat_table :=
  ⟨rfl, rfl, rfl, rfl⟩

/-- C10: `Invoice.__init__` succeeds exactly when the client argument is a
`Client` instance, the provider a `Provider` instance and the creator a
`Creator` instance; a plain `Address` in either party role, or the
provider and client arguments swapped, fails the `isinstance` assertion. -/
theorem C10_invoice_init_isinstance (c p : PartyObj) (cr : CreatorObj)
    (a : Address) :
    ((Invoice.init c p cr).isSome ↔
      (c.cls = PartyClass.client ∧ p.cls = PartyClass.provider ∧
        cr.cls = CreatorClass.creator)) ∧
    (c.cls = PartyClass.client → p.cls = PartyClass.provider →
      Invoice.init { cls := PartyClass.address, data := a } p cr = none ∧
      Invoice.init c { cls := PartyClass.address, data := a } cr = none ∧
      Invoice.init p c cr = none) := by
  constructor
  · unfold Invoice.init
    split_ifs with h
    · simp [h]
    · simp [h]
  · intro hc hp
    refine ⟨?_, ?_, ?_⟩ <;> unfold Invoice.init <;>
      simp [hc, hp]

/-- C1: `price` is the exact decimal sum of `price × count` over the
items — invariant under any permutation of the item sequence — and the
rounding policy is applied to that sum exactly when the rounding toggle
is enabled. -/
theorem C1_price_sum_order_independent (inv : Invoice) (l : List Item)
    (h : l.Perm inv._items) :
    Invoice.price { inv with _items := l } = inv.price ∧
    inv.price = (if inv.rounding_result
      then ((applyRounding inv.rounding_strategy
          ((inv._items.map (fun it => it.price * it.count)).sum) : ℤ) : ℚ)
      else (inv._items.map (fun it => it.price * it.count)).sum) := by
  have hsum : (l.map Item.total).sum = (inv._items.map Item.total).sum :=
    (h.map Item.total).sum_eq
  refine ⟨?_, rfl⟩
  show inv._round_result (l.map Item.total).sum =
    inv._round_result (inv._items.map Item.total).sum
  rw [hsum]

theorem C1_price_sum_order_independent_witness :
    ([itemB, itemA].Perm sampleInvoice._items) ∧
    Invoice.price { sampleInvoice with _items := [itemB, itemA] } =
      sampleInvoice.price :=
  ⟨List.Perm.swap itemA itemB [],
    (C1_price_sum_order_independent sampleInvoice [itemB, itemA]
      (List.Perm.swap itemA itemB [])).1⟩

/-! ## The grouping fold agrees with the spec-side description -/

theorem seenFold_mem (acc : List ℚ) (it : Item) (r : ℚ) :
    r ∈ seenFold acc it ↔ r ∈ acc ∨ r = it.tax := by
  unfold seenFold
  split_ifs with h
  · exact ⟨Or.inl, fun hr => hr.elim id (fun he => he ▸ h)⟩
  · simp

theorem foldl_seenFold_mem (items : List Item) :
    ∀ (acc : List ℚ) (r : ℚ),
      r ∈ items.foldl seenFold acc ↔
        r ∈ acc ∨ ∃ it ∈ items, it.tax = r := by
  induction items with
  | nil =>
      intro acc r
      simp
  | cons it rest ih =>
      intro acc r
      rw [List.foldl_cons, ih, seenFold_mem]
      constructor
      · rintro ((hr | rfl) | ⟨i, hi, rfl⟩)
        · exact Or.inl hr
        · exact Or.inr ⟨it, by simp, rfl⟩
        · exact Or.inr ⟨i, by simp [hi], rfl⟩
      · rintro (hr | ⟨i, hi, rfl⟩)
        · exact Or.inl (Or.inl hr)
        · rcases List.mem_cons.mp hi with rfl | hi2
          · exact Or.inl (Or.inr rfl)
          · exact Or.inr ⟨i, hi2, rfl⟩

theorem firstSeenRates_mem (items : List Item) (r : ℚ) :
    r ∈ firstSeenRates items ↔ ∃ it ∈ items, it.tax = r := by
  unfold firstSeenRates
  rw [foldl_seenFold_mem]
  simp

theorem foldl_seenFold_nodup (items : List Item) :
    ∀ acc : List ℚ, acc.Nodup → (items.foldl seenFold acc).Nodup := by
  induction items with
  | nil =>
      intro acc h
      exact h
  | cons it rest ih =>
      intro acc h
      rw [List.foldl_cons]
      apply ih
      unfold seenFold
      split_ifs with hmem
      · exact h
      · rw [List.nodup_append]
        refine ⟨h, List.nodup_singleton _, ?_⟩
        intro a ha hb
        rw [List.mem_singleton] at hb
        exact hmem (hb ▸ ha)

theorem firstSeenRates_nodup (items : List Item) :
    (firstSeenRates items).Nodup :=
  foldl_seenFold_nodup items [] List.nodup_nil

theorem firstSeenRates_append (items : List Item) (it : Item) :
    firstSeenRates (items ++ [it]) =
      if it.tax ∈ firstSeenRates items then firstSeenRates items
      else firstSeenRates items ++ [it.tax] := by
  unfold firstSeenRates
  rw [List.foldl_append]
  rfl

theorem updateTable_not_mem (it : Item) :
    ∀ t : List (ℚ × VatRow), it.tax ∉ t.map Prod.fst →
      updateTable t it = t ++ [(it.tax, initRow it)] := by
  intro t
  induction t with
  | nil =>
      intro _
      rfl
  | cons hd rest ih =>
      intro h
      obtain ⟨r, row⟩ := hd
      rw [List.map_cons] at h
      have hr : ¬ r = it.tax := by
        intro hre
        exact h (by simp [hre])
      simp only [updateTable, if_neg hr]
      rw [ih (fun hm => h (List.mem_cons_of_mem _ hm))]
      rfl

theorem updateTable_mem (it : Item) (row : VatRow)
    (t2 : List (ℚ × VatRow)) :
    ∀ t1 : List (ℚ × VatRow), it.tax ∉ t1.map Prod.fst →
      updateTable (t1 ++ (it.tax, row) :: t2) it =
        t1 ++ (it.tax, addRow row it) :: t2 := by
  intro t1
  induction t1 with
  | nil =>
      intro _
      simp [updateTable]
  | cons hd rest ih =>
      intro h
      obtain ⟨r, rrow⟩ := hd
      rw [List.map_cons] at h
      have hr : ¬ r = it.tax := by
        intro hre
        exact h (by simp [hre])
      rw [List.cons_append]
      simp only [updateTable, if_neg hr]
      rw [ih (fun hm => h (List.mem_cons_of_mem _ hm))]
      rfl

theorem rateRow_append_ne (items : List Item) (it : Item) (r : ℚ)
    (h : ¬ r = it.tax) :
    rateRow (items ++ [it]) r = rateRow items r := by
  unfold rateRow
  have hfil : [it].filter (fun i => i.tax = r) = [] := by
    simp only [List.filter, decide_eq_true_eq]
    have : ¬ it.tax = r := fun he => h he.symm
    simp [this]
  rw [List.filter_append, hfil, List.append_nil]

theorem rateRow_append_eq (items : List Item) (it : Item) :
    rateRow (items ++ [it]) it.tax = addRow (rateRow items it.tax) it := by
  unfold rateRow addRow
  have hfil : [it].filter (fun i => i.tax = it.tax) = [it] := by
    simp
  rw [List.filter_append, hfil]
  simp

theorem filter_tax_eq_nil (items : List Item) (it : Item)
    (h : it.tax ∉ firstSeenRates items) :
    items.filter (fun i => i.tax = it.tax) = [] := by
  rw [List.filter_eq_nil_iff]
  intro i hi
  simp only [decide_eq_true_eq]
  intro he
  exact h ((firstSeenRates_mem items it.tax).mpr ⟨i, hi, he⟩)

theorem rateRow_singleton (items : List Item) (it : Item)
    (h : items.filter (fun i => i.tax = it.tax) = []) :
    rateRow (items ++ [it]) it.tax = initRow it := by
  unfold rateRow initRow
  rw [List.filter_append, h, List.nil_append]
  simp

theorem specTable_keys (items : List Item) :
    (specTable items).map Prod.fst = firstSeenRates items := by
  unfold specTable
  rw [List.map_map]
  have hcomp : (Prod.fst ∘ fun r => (r, rateRow items r)) = id := rfl
  rw [hcomp, List.map_id]

theorem foldl_updateTable_eq_specTable (items : List Item) :
    items.foldl updateTable [] = specTable items := by
  induction items using List.reverseRecOn with
  | nil => rfl
  | append_singleton items it ih =>
      rw [List.foldl_append, List.foldl_cons, List.foldl_nil, ih]
      by_cases hmem : it.tax ∈ firstSeenRates items
      · obtain ⟨rs1, rs2, hsplit⟩ := List.append_of_mem hmem
        have hnd := firstSeenRates_nodup items
        rw [hsplit] at hnd
        rw [List.nodup_append] at hnd
        have h1 : it.tax ∉ rs1 :=
          fun hm => hnd.2.2 hm (List.mem_cons_self _ _)
        have h2 : ∀ r ∈ rs1, ¬ r = it.tax :=
          fun r hr he => h1 (he ▸ hr)
        have h3 : ∀ r ∈ rs2, ¬ r = it.tax := by
          intro r hr he
          have := (List.nodup_cons.mp hnd.2.1).1
          exact this (he ▸ hr)
        have hkeys : it.tax ∉ (rs1.map
            (fun r => (r, rateRow items r))).map Prod.fst := by
          rw [List.map_map]
          simpa using h1
        calc updateTable (specTable items) it
            = updateTable (rs1.map (fun r => (r, rateRow items r)) ++
                (it.tax, rateRow items it.tax) ::
                rs2.map (fun r => (r, rateRow items r))) it := by
              unfold specTable
              rw [hsplit, List.map_append, List.map_cons]
          _ = rs1.map (fun r => (r, rateRow items r)) ++
                (it.tax, addRow (rateRow items it.tax) it) ::
                rs2.map (fun r => (r, rateRow items r)) :=
              updateTable_mem it (rateRow items it.tax) _ _ hkeys
          _ = specTable (items ++ [it]) := by
              unfold specTable
              rw [firstSeenRates_append, if_pos hmem, hsplit,
                List.map_append, List.map_cons]
              congr 1
              · apply List.map_congr_left
                intro r hr
                rw [rateRow_append_ne items it r (h2 r hr)]
              · rw [rateRow_append_eq]
                congr 1
                apply List.map_congr_left
                intro r hr
                rw [rateRow_append_ne items it r (h3 r hr)]
      · have hkeys : it.tax ∉ (specTable items).map Prod.fst := by
          rw [specTable_keys]
          exact hmem
        rw [updateTable_not_mem it _ hkeys]
        unfold specTable
        rw [firstSeenRates_append, if_neg hmem, List.map_append,
          List.map_singleton]
        congr 1
        · apply List.map_congr_left
          intro r hr
          have hne : ¬ r = it.tax := fun he => hmem (he ▸ hr)
          rw [rateRow_append_ne items it r hne]
        · rw [rateRow_singleton items it (filter_tax_eq_nil items it hmem)]

/-- C3: the tax breakdown table groups items by exact decimal equality of
their tax rate, lists its rows in first-encountered order of the rates
(not sorted by value), and each row is the rate with the summed pre-tax
total, post-tax total and tax amount of the items at that rate. -/
theorem C3_breakdown_matches_spec (inv : Invoice) :
    inv.generate_breakdown_vat_table = breakdownSpec inv._items := by
  unfold Invoice.generate_breakdown_vat_table Invoice.generate_breakdown_vat
    Invoice._get_grouped_items_by_tax breakdownSpec Invoice.items
  rw [foldl_updateTable_eq_specTable]

/-! ## Sum of the breakdown rows -/

theorem updateTable_total_sum (it : Item) :
    ∀ t : List (ℚ × VatRow),
      ((updateTable t it).map (fun p => p.2.total)).sum =
        (t.map (fun p => p.2.total)).sum + it.total := by
  intro t
  induction t with
  | nil => simp [updateTable, initRow]
  | cons hd rest ih =>
      obtain ⟨r, row⟩ := hd
      by_cases hr : r = it.tax
      · simp only [updateTable, if_pos hr, List.map_cons, List.sum_cons,
          addRow]
        ring
      · simp only [updateTable, if_neg hr, List.map_cons, List.sum_cons,
          ih]
        ring

theorem foldl_updateTable_total_sum (items : List Item) :
    ∀ t : List (ℚ × VatRow),
      ((items.foldl updateTable t).map (fun p => p.2.total)).sum =
        (t.map (fun p => p.2.total)).sum + (items.map Item.total).sum := by
  induction items with
  | nil =>
      intro t
      simp
  | cons it rest ih =>
      intro t
      rw [List.foldl_cons, ih, updateTable_total_sum, List.map_cons,
        List.sum_cons]
      ring

/-- C8 (amended): the breakdown rows partition the items exactly once —
the sum of the rows' pre-tax totals equals the exact sum of the item
totals, which is `price` whenever the rounding toggle is disabled. -/
theorem C8_rows_total_sum_eq_price (inv : Invoice)
    (h : inv.rounding_result = false) :
    (inv.generate_breakdown_vat_table.map (fun row => row.2.1)).sum =
      inv.price := by
  unfold Invoice.generate_breakdown_vat_table Invoice.generate_breakdown_vat
    Invoice._get_grouped_items_by_tax Invoice.price Invoice._round_result
    Invoice.items
  rw [h]
  simp only [Bool.false_eq_true, if_false, List.map_map]
  have h2 := foldl_updateTable_total_sum inv._items []
  simpa using h2

theorem C8_rows_total_sum_eq_price_witness :
    sampleInvoice.rounding_result = false ∧
    (sampleInvoice.generate_breakdown_vat_table.map
        (fun row => row.2.1)).sum = sampleInvoice.price :=
  ⟨rfl, C8_rows_total_sum_eq_price sampleInvoice rfl⟩

/-- C8 counterexample: on `cexInvoice` (rounding toggle enabled,
half-even strategy, a single item of total 1/2) the rows' pre-tax totals
sum to 1/2 while `price` is rounded to 0, so the claimed equality with
`price()` fails as stated. -/
theorem C8_rows_total_sum_ne_price_rounded :
    (cexInvoice.generate_breakdown_vat_table.map
        (fun row => row.2.1)).sum = 1 / 2 ∧
    cexInvoice.price = 0 ∧
    (cexInvoice.generate_breakdown_vat_table.map
        (fun row => row.2.1)).sum ≠ cexInvoice.price := by
  have hfl : (⌊(1 / 2 : ℚ)⌋ : ℤ) = 0 := by norm_num
  have ha : (cexInvoice.generate_breakdown_vat_table.map
      (fun row => row.2.1)).sum = 1 / 2 := by
    norm_num [cexInvoice, Invoice.generate_breakdown_vat_table,
      Invoice.generate_breakdown_vat, Invoice._get_grouped_items_by_tax,
      Invoice.items, updateTable, initRow, Item.total, Item.price,
      Item.count]
  have hb : cexInvoice.price = 0 := by
    norm_num [cexInvoice, Invoice.price, Invoice._round_result,
      Invoice._round_price, Invoice.items, Item.total, Item.price,
      Item.count, applyRounding, halfRound, hfl]
  refine ⟨ha, hb, ?_⟩
  rw [ha, hb]
  norm_num

theorem C10_invoice_init_isinstance_witness :
    Invoice.init ⟨PartyClass.address, sampleClient⟩ providerObj
        creatorObj = none ∧
    Invoice.init clientObj ⟨PartyClass.address, sampleClient⟩
        creatorObj = none ∧
    Invoice.init providerObj clientObj creatorObj = none :=
  (C10_invoice_init_isinstance clientObj providerObj creatorObj
    sampleClient).2 rfl rfl

end InvoiceGen
